import Mathlib

/-!
Shallow embedding of `dax/spiders.py` (Spider base class and helpers),
with theorems checking the natural-language specification against the code.

Python dictionary values that can be `None` are modelled as `Option String`
(`none` = Python `None`).  Python dictionaries with possibly-absent keys are
modelled as association lists `List (String × Option String)`; a lookup that
misses models a `KeyError`.  Python truthiness of such a value (`if value:`)
is: `None` is falsy and `""` is falsy.
-/

/-- Python truthiness for an optional string: `None` and `""` are falsy. -/
def truthy : Option String → Bool
  | none => false
  | some s => s ≠ ""

/-- Extract the string out of a truthy optional value (`""` for `None`;
only used where the source has already checked truthiness). -/
def optVal : Option String → String
  | none => ""
  | some s => s

/-- Model of Python `sep.join(list)`. -/
def joinSep (sep : String) : List String → String
  | [] => ""
  | [x] => x
  | x :: y :: rest => x ++ sep ++ joinSep sep (y :: rest)

/-- Model of Python `needle in hay` for strings: some suffix of `hay`
starts with `needle`. -/
def strContains (hay needle : String) : Bool :=
  (hay.data.tails).any (fun t => needle.data.isPrefixOf t)

/-- Embedding of `Spider.get_assessor_label` (spiders.py lines 316-328):
if `'-x-'` does not occur in `label`, join project, subject, session,
(scan when truthy), label with `'-x-'`; otherwise return `label` verbatim.
`scan` is falsy when `None` or `""` (Python `if not scan:`). -/
def get_assessor_label (proj subj sess : String) (label : String)
    (scan : Option String) : String :=
  if !(strContains label "-x-") then
    if !(truthy scan) then
      joinSep "-x-" [proj, subj, sess, label]
    else
      joinSep "-x-" [proj, subj, sess, optVal scan, label]
  else
    label

/-- Outcome of the password-resolution function `get_pwd`:
a returned value, an interactive `getpass` prompt, or a raised
`ValueError`. -/
inductive PwdOutcome
  | value (pwd : String)
  | prompt (user : String) (host : Option String)
  | failure
deriving DecidableEq

/-- Embedding of `get_pwd` (spiders.py lines 1208-1230).  `envPass` is the
value of the environment variable `XNAT_PASS` (`none` when unset; the source
checks membership and `!= ""`, which is exactly `truthy`).  The source order
is: explicit `pwd` first; then, if `user` is truthy, prompt interactively;
otherwise consult `XNAT_PASS`; otherwise raise `ValueError`. -/
def get_pwd (host user pwd envPass : Option String) : PwdOutcome :=
  if truthy pwd then PwdOutcome.value (optVal pwd)
  else if truthy user then PwdOutcome.prompt (optVal user) host
  else if truthy envPass then PwdOutcome.value (optVal envPass)
  else PwdOutcome.failure

/-- Result list of files directly placed under the per-input data folder by
the flattening loop of `Spider.download_inputs` (spiders.py lines 247-253).
Each listing entry of the extracted resource folder is either a plain file
or a directory (with the names of its own entries).  For a file, the source
runs `copy(src_path, data_folder)`, placing the file directly in the data
folder.  For a directory it runs `copytree(src_path, data_folder)`; the
destination `data_folder` already exists (created at lines 239-240), and
`shutil.copytree` requires a non-existing destination, so the call raises
`OSError` and the loop aborts. -/
inductive FsEntry
  | file (name : String)
  | dir (name : String) (contents : List String)
deriving DecidableEq

/-- Embedding of the flattening loop of `Spider.download_inputs`
(spiders.py lines 247-253), returning the names landing directly in the
data folder, or the uncaught exception. -/
def flattenResource : List FsEntry → Except String (List String)
  | [] => Except.ok []
  | FsEntry.file n :: rest => (flattenResource rest).map (fun l => n :: l)
  | FsEntry.dir _ _ :: _ =>
      Except.error "OSError: copytree destination data_folder already exists"

/-- Character class of the regex `[a-zA-Z0-9]` used by the suffix
sanitization in `Spider.__init__` (spiders.py line 96). -/
def isAlphanum (c : Char) : Bool :=
  (decide ('a' ≤ c) && decide (c ≤ 'z'))
  || (decide ('A' ≤ c) && decide (c ≤ 'Z'))
  || (decide ('0' ≤ c) && decide (c ≤ '9'))

/-- Step 1 of suffix sanitization, `re.sub('[^a-zA-Z0-9]', '_', suffix)`
(spiders.py line 96): every non-alphanumeric character becomes `'_'`. -/
def subNonAlnum (l : List Char) : List Char :=
  l.map (fun c => if isAlphanum c then c else '_')

/-- Step 2 of suffix sanitization, `re.sub('_+', '_', ...)` (spiders.py
line 98): collapse each run of underscores to a single underscore. -/
def collapseU : List Char → List Char
  | [] => []
  | [c] => [c]
  | c :: d :: rest =>
      if c = '_' ∧ d = '_' then collapseU (d :: rest)
      else c :: collapseU (d :: rest)

/-- No two adjacent underscores (the invariant established by step 2). -/
def noDD : List Char → Bool
  | [] => true
  | [_] => true
  | c :: d :: rest => !(c == '_' && d == '_') && noDD (d :: rest)

/-- Step 3 of suffix sanitization (spiders.py lines 100-101):
`if self.suffix[-1] == '_': self.suffix = self.suffix[:-1]`.  The suffix is
non-empty when this line runs, so `getLast?` models `[-1]` exactly. -/
def stripTrailing (l : List Char) : List Char :=
  if l.getLast? = some '_' then l.dropLast else l

/-- Step 4 of suffix sanitization (spiders.py lines 103-104):
`if self.suffix[0] != '_': self.suffix = '_' + self.suffix`.  On an empty
string, `self.suffix[0]` raises `IndexError`, modelled by `none`. -/
def addLeading : List Char → Option (List Char)
  | [] => none
  | c :: rest => some (if c = '_' then c :: rest else '_' :: c :: rest)

/-- Embedding of the suffix sanitization of `Spider.__init__` (spiders.py
lines 92-104).  A falsy (empty) suffix is kept as `""`; otherwise the four
steps run in order; `none` models the `IndexError` raised on strings whose
characters are all non-alphanumeric. -/
def sanitize_suffix (suffix : String) : Option String :=
  if suffix = "" then some ""
  else
    (addLeading (stripTrailing (collapseU (subNonAlnum suffix.data)))).map
      String.mk

/-- One entry of `self.data` in `Spider.download_inputs` (spiders.py lines
254-266): the XNAT label (the value of `data_dict['label']`, possibly
`None`) and the list of downloaded file paths. -/
structure DataEntry where
  label : Option String
  files : List String
deriving DecidableEq

/-- Embedding of the merge step of `Spider.download_inputs` (spiders.py
lines 259-266): the first entry whose label equals the new label gets its
file list replaced by `list(set(list_files + item[0]['files']))`; with no
matching entry, a new one is appended.  Python's `list(set(xs))` returns
the distinct elements of `xs` in an unspecified order; it is modelled as
`List.dedup`, and the theorems about it only use membership (set)
equality. -/
def updateData : List DataEntry → Option String → List String →
    List DataEntry
  | [], l, fs => [⟨l, fs⟩]
  | e :: rest, l, fs =>
      if e.label = l then ⟨e.label, (fs ++ e.files).dedup⟩ :: rest
      else e :: updateData rest l fs

/-- Number of entries of `self.data` carrying a given label. -/
def countLabel (data : List DataEntry) (l : Option String) : Nat :=
  data.countP (fun e => e.label == l)

/-- File list of the first entry carrying a given label. -/
def lookupFiles (data : List DataEntry) (l : Option String) :
    Option (List String) :=
  (data.find? (fun e => e.label == l)).map (fun e => e.files)

/-- An input spec dictionary (`data_dict` in `Spider.download_inputs`):
an association list from key to possibly-`None` string value; a missing
key models a Python `KeyError` on subscript access. -/
def DataDict := List (String × Option String)

/-- Model of Python `data_dict[k]` lookup: outer `none` means the key is
absent (`KeyError`); `some none` means the key maps to `None`. -/
def dGet (d : DataDict) (k : String) : Option (Option String) :=
  (d.find? (fun kv => kv.1 == k)).map (fun kv => kv.2)

/-- Model of Python `data_dict.get(k, None)`. -/
def pyGetD (d : DataDict) (k : String) : Option String :=
  (dGet d k).getD none

/-- Model of the comparison `data_dict == 'assessor'` at spiders.py line
310: in Python an equality test between a `dict` and a `str` is always
`False`, whatever the operands hold. -/
def dictEqStr (_ : DataDict) (_ : String) : Bool := false

/-- Embedding of `Spider.get_xnat_dict` (spiders.py lines 269-314).
Returns the ordered key/value address document, or `none` where the source
prints a warning and returns `None` (missing/falsy `type`, or missing/falsy
`label` for the scan and assessor kinds).  The final key for the resource
component follows the source literally: `if data_dict == 'assessor'`
compares the dictionary itself against a string (see `dictEqStr`), so the
`'out/resource'` key is unreachable. -/
def get_xnat_dict (proj subj sess : String) (d : DataDict) :
    Option (List (String × Option String)) :=
  let itype := pyGetD d "type"
  if !(truthy itype) then none
  else
    let label := pyGetD d "label"
    let core : Option (List (String × Option String)) :=
      if itype = some "subject" then
        some [("project", some proj), ("subject", some subj)]
      else if itype = some "session" then
        some [("project", some proj), ("subject", some subj),
              ("experiment", some sess)]
      else if itype = some "scan" then
        if !(truthy label) then none
        else
          some [("project", some proj), ("subject", some subj),
                ("experiment", some sess), ("scan", label)]
      else if itype = some "assessor" then
        if !(truthy label) then none
        else
          some [("project", some proj), ("subject", some subj),
                ("experiment", some sess),
                ("assessor", some (get_assessor_label proj subj sess
                    (optVal label) (pyGetD d "scan")))]
      else some [("project", some proj)]
    match core with
    | none => none
    | some xd =>
        some (xd ++ [((if dictEqStr d "assessor" then "out/resource"
                       else "resource"), pyGetD d "resource")])

/-- Embedding of `Spider.select_str` (spiders.py lines 660-676): keys with
falsy values are omitted from the slash-delimited path. -/
def select_str (xdict : List (String × Option String)) : String :=
  xdict.foldl (fun acc kv =>
    if truthy kv.2 then acc ++ "/" ++ kv.1 ++ "/" ++ optVal kv.2 else acc) ""

/-- Embedding of the per-input front half of `Spider.download_inputs`
(spiders.py lines 228-243) for one `data_dict`: validate and address the
input, returning the pyxnat selection string.  Errors model the uncaught
exceptions of the source: `data_dict['label']` at lines 235, 237 and
`data_dict['resource']` at line 237 raise `KeyError` when the key is
absent; `os.path.join` with a `None` component raises `TypeError`; and a
`None` result of `get_xnat_dict` makes `select_str` (line 242) raise
`AttributeError` on `xnat_dict.items()`. -/
def download_inputs_check (input_dir : String) (proj subj sess : String)
    (d : DataDict) : Except String String := do
  let _folder : String ←
    match dGet d "dir" with
    | some (some dirv) => Except.ok (input_dir ++ "/" ++ dirv)
    | some none => Except.error "TypeError: join with None"
    | none =>
        match dGet d "label" with
        | some (some labv) => Except.ok (input_dir ++ "/" ++ labv)
        | some none => Except.error "TypeError: join with None"
        | none => Except.error "KeyError: label"
  let _ ← match dGet d "resource" with
    | some _ => Except.ok ()
    | none => Except.error "KeyError: resource"
  let _ ← match dGet d "label" with
    | some _ => Except.ok ()
    | none => Except.error "KeyError: label"
  match get_xnat_dict proj subj sess d with
  | none => Except.error "AttributeError: NoneType has no attribute items"
  | some xd => Except.ok (select_str xd)

/-- Concrete assessor input spec (all keys present) used to exercise
`get_xnat_dict`. -/
def dAssessorInput : DataDict :=
  [("type", some "assessor"), ("label", some "proc1"),
   ("resource", some "R")]

/-- Concrete session input spec with no `'label'` key, as the docstring of
`download_inputs` allows for the session kind. -/
def dSessionNoLabel : DataDict :=
  [("type", some "session"), ("resource", some "DATA"),
   ("dir", some "sess_data")]

/-- One entry of `cmd_args['args']` in `Spider.run_cmd_args` (spiders.py
lines 606-648). -/
structure CmdArg where
  position : Int
  opt : String
  value : String
deriving DecidableEq

/-- Outcome of the `matlab=True` branch of `Spider.run_cmd_args`. -/
inductive MatlabOutcome
  | raisesTemplateNotSet
  | raisesKeyError (k : String)
  | raisesAttributeError
  | runs (script : String)
deriving DecidableEq

/-- Embedding of the `matlab=True` branch of `Spider.run_cmd_args`
(spiders.py lines 628-641).  A falsy template raises (line 630).
Otherwise the loop body `mat_args[arg['opt']] == arg['value']` (line 633)
subscripts the just-created empty dict `mat_args` — `==` here is a
comparison, not an assignment — so the first argument raises `KeyError` on
its `opt`.  With an empty argument list the flow continues to
`self.jobsdir` (line 637), an attribute that does not exist (the spider
attribute is `jobdir`), raising `AttributeError` (for templates with named
placeholders, `str.format` at line 634 raises even earlier — either way an
exception occurs before any script is written).  The `runs` outcome is
unreachable. -/
def run_cmd_args_matlab (args : List CmdArg)
    (matlab_template : Option String) : MatlabOutcome :=
  if !(truthy matlab_template) then MatlabOutcome.raisesTemplateNotSet
  else
    match args with
    | [] => MatlabOutcome.raisesAttributeError
    | a :: _ => MatlabOutcome.raisesKeyError a.opt

/-- Model of Python `value.split(',')` (aux recursion): `acc` carries the
characters of the current field in reverse. -/
def splitCommaAux : List Char → List Char → List String
  | [], acc => [String.mk acc.reverse]
  | c :: rest, acc =>
      if c = ',' then String.mk acc.reverse :: splitCommaAux rest []
      else splitCommaAux rest (c :: acc)

/-- Model of Python `value.split(',')` as used at spiders.py line 900:
`"".split(',') == ['']` and separators produce empty fields. -/
def pySplitComma (s : String) : List String := splitCommaAux s.data []

/-- Embedding of the inner staging loop of `AutoSpider.copy_inputs`
(spiders.py lines 898-909) for one parameter: the comma-separated sources
are copied one by one into numbered destinations `param_i`; `copyf` is the
copy oracle (`AutoSpider.copy_input`), returning `none` when a copy fails
(the source logs and returns `None`).  The index argument carries the
running `enumerate` counter. -/
def stageList (copyf : String → String → Option String) (p : String) :
    Nat → List String → Option (List String)
  | _, [] => some []
  | i, s :: rest =>
      match copyf s (p ++ "_" ++ toString i) with
      | none => none
      | some dst => (stageList copyf p (i + 1) rest).map (fun l => dst :: l)

/-- Staged comma-joined replacement value for one FILE/DIR parameter
(spiders.py lines 900-912). -/
def stage_param (copyf : String → String → Option String)
    (p value : String) : Option String :=
  (stageList copyf p 0 (pySplitComma value)).map (joinSep ",")

/-- Embedding of `AutoSpider.copy_inputs` (spiders.py lines 893-914) over
the declared FILE/DIR parameters `copy_list`: `src` gives each parameter's
original comma-separated value; the first failing copy aborts the whole
staging step with `none` (the source logs and returns `None`); on success
the list of `(parameter, staged comma-joined local paths)` replacements
is returned. -/
def copy_inputs (src : String → String) :
    List String → (String → String → Option String) →
    Option (List (String × String))
  | [], _ => some []
  | p :: rest, copyf =>
      match stage_param copyf p (src p) with
      | none => none
      | some v => (copy_inputs src rest copyf).map (fun l => (p, v) :: l)

/-- Kind of a local path as seen by `os.path.isfile` / `os.path.isdir`. -/
inductive PathKind
  | file
  | dir
  | missing
deriving DecidableEq

/-- Registration performed by `Spider.upload` on the spider handler. -/
inductive UploadAction
  | addPdf (p : String)
  | addFile (p r : String)
  | addFolder (p r : String)
deriving DecidableEq

/-- Embedding of `Spider.upload` (spiders.py lines 377-399): a regular
file named resource `'PDF'` goes to `add_pdf`, any other file to
`add_file`, any directory to `add_folder`, and a missing path raises
`ValueError`.  `kind` models the filesystem (`os.path.isfile` /
`os.path.isdir`). -/
def upload (kind : String → PathKind) (fpath resource : String) :
    Except String UploadAction :=
  match kind fpath with
  | PathKind.file =>
      if resource = "PDF" then Except.ok (UploadAction.addPdf fpath)
      else Except.ok (UploadAction.addFile fpath resource)
  | PathKind.dir => Except.ok (UploadAction.addFolder fpath resource)
  | PathKind.missing =>
      Except.error ("upload(): file path does not exist: " ++ fpath)

/-- Concrete source-value map used to exercise `copy_inputs`: one
parameter whose value names two sources, the second of which fails. -/
def srcW : String → String := fun _ => "x,bad"

/-- Concrete copy oracle used to exercise `copy_inputs`: copying the
source `"bad"` fails, every other source is staged under `/INPUT`. -/
def copyW : String → String → Option String :=
  fun s n => if s = "bad" then none else some ("/INPUT/" ++ n ++ "/" ++ s)

/-- C5: assessor label synthesis.  For a label without the separator,
`scan = none` gives `P-x-S-x-E-x-L` and a non-empty scan `C` gives
`P-x-S-x-E-x-C-x-L`; a label already containing `-x-` is returned
unchanged. -/
theorem get_assessor_label_spec (P S E L C L' : String) (sc : Option String)
    (hL : strContains L "-x-" = false) (hC : C ≠ "")
    (hL' : strContains L' "-x-" = true) :
    get_assessor_label P S E L none
        = P ++ "-x-" ++ S ++ "-x-" ++ E ++ "-x-" ++ L
    ∧ get_assessor_label P S E L (some C)
        = P ++ "-x-" ++ S ++ "-x-" ++ E ++ "-x-" ++ C ++ "-x-" ++ L
    ∧ get_assessor_label P S E L' sc = L' := by
  refine ⟨?_, ?_, ?_⟩
  · simp [get_assessor_label, hL, truthy, joinSep]
    simp [String.append_assoc]
  · simp [get_assessor_label, hL, truthy, hC, optVal, joinSep]
    simp [String.append_assoc]
  · simp [get_assessor_label, hL']

/-- Witness for C5 at concrete inputs. -/
theorem get_assessor_label_spec_witness :
    strContains "proc" "-x-" = false ∧ ("2" : String) ≠ ""
    ∧ strContains "A-x-B" "-x-" = true
    ∧ (get_assessor_label "P" "S" "E" "proc" none = "P-x-S-x-E-x-proc"
       ∧ get_assessor_label "P" "S" "E" "proc" (some "2")
           = "P-x-S-x-E-x-2-x-proc"
       ∧ get_assessor_label "P" "S" "E" "A-x-B" none = "A-x-B") := by
  refine ⟨by decide, by decide, by decide, ?_⟩
  exact get_assessor_label_spec "P" "S" "E" "proc" "2" "A-x-B" none
    (by decide) (by decide) (by decide)

/-- C3 counterexample: with no explicit password, a known user and the
environment variable `XNAT_PASS` set to `"secret"`, the code prompts
interactively instead of returning the environment value, refuting the
claimed precedence (argument > environment > prompt). -/
theorem get_pwd_env_not_before_prompt :
    get_pwd (some "h") (some "u") none (some "secret")
        = PwdOutcome.prompt "u" (some "h")
    ∧ get_pwd (some "h") (some "u") none (some "secret")
        ≠ PwdOutcome.value "secret" := by
  exact ⟨rfl, by decide⟩

/-- C3 amended: explicit argument first; when no explicit password is given
and a user is known, the interactive prompt is used (even when the
environment variable is set); the environment variable is consulted only
when no user is known; with no argument, no user and no environment value,
a ValueError is raised. -/
theorem get_pwd_precedence (host user pwd envPass : Option String) :
    (truthy pwd = true → get_pwd host user pwd envPass
        = PwdOutcome.value (optVal pwd))
    ∧ (truthy pwd = false → truthy user = true →
        get_pwd host user pwd envPass = PwdOutcome.prompt (optVal user) host)
    ∧ (truthy pwd = false → truthy user = false → truthy envPass = true →
        get_pwd host user pwd envPass = PwdOutcome.value (optVal envPass))
    ∧ (truthy pwd = false → truthy user = false → truthy envPass = false →
        get_pwd host user pwd envPass = PwdOutcome.failure) := by
  refine ⟨fun h => ?_, fun h1 h2 => ?_, fun h1 h2 h3 => ?_,
    fun h1 h2 h3 => ?_⟩
  · simp [get_pwd, h]
  · simp [get_pwd, h1, h2]
  · simp [get_pwd, h1, h2, h3]
  · simp [get_pwd, h1, h2, h3]

/-- Witness for C3 amended at concrete inputs. -/
theorem get_pwd_precedence_witness :
    truthy (none : Option String) = false ∧ truthy (some "u") = true
    ∧ get_pwd (some "h") (some "u") none (some "secret")
        = PwdOutcome.prompt "u" (some "h") := by
  refine ⟨by decide, by decide, ?_⟩
  exact (get_pwd_precedence (some "h") (some "u") none (some "secret")).2.1
    (by decide) (by decide)

/-- C6: when the extracted resource folder contains a subdirectory, the
flattening loop raises (shutil.copytree is called with the already-existing
data folder as destination) instead of moving the directory up; with plain
files only, the files do land directly in the data folder. -/
theorem flattenResource_dir_raises :
    flattenResource [FsEntry.dir "d" ["f.txt"]]
        = Except.error
            "OSError: copytree destination data_folder already exists"
    ∧ flattenResource [FsEntry.file "a.txt", FsEntry.file "b.txt"]
        = Except.ok ["a.txt", "b.txt"] := ⟨rfl, rfl⟩

theorem mem_subNonAlnum {c : Char} {l : List Char}
    (hc : c ∈ subNonAlnum l) : isAlphanum c = true ∨ c = '_' := by
  simp only [subNonAlnum, List.mem_map] at hc
  obtain ⟨a, _, rfl⟩ := hc
  by_cases h : isAlphanum a <;> simp [h]

theorem subNonAlnum_keeps_alnum {l : List Char}
    (h : ∃ c ∈ l, isAlphanum c = true) :
    ∃ c ∈ subNonAlnum l, isAlphanum c = true := by
  obtain ⟨c, hc, ha⟩ := h
  exact ⟨c, List.mem_map.mpr ⟨c, hc, by simp [ha]⟩, ha⟩

theorem subNonAlnum_id {l : List Char}
    (h : ∀ c ∈ l, isAlphanum c = true ∨ c = '_') : subNonAlnum l = l := by
  induction l with
  | nil => rfl
  | cons c rest ih =>
      have hc := h c (by simp)
      have : (if isAlphanum c then c else '_') = c := by
        rcases hc with h1 | h1
        · simp [h1]
        · subst h1; simp
      simp only [subNonAlnum, List.map_cons] at *
      rw [this, ih (fun d hd => h d (by simp [hd]))]

theorem collapseU_head : ∀ (c : Char) (l : List Char),
    (collapseU (c :: l)).head? = some c
  | _, [] => by simp [collapseU]
  | c, d :: rest => by
      by_cases h : c = '_' ∧ d = '_'
      · rw [show collapseU (c :: d :: rest) = collapseU (d :: rest) by
          simp [collapseU, h]]
        rw [collapseU_head d rest, h.1, h.2]
      · rw [show collapseU (c :: d :: rest) = c :: collapseU (d :: rest) by
          simp [collapseU, h]]
        rfl

theorem collapseU_mem : ∀ {c : Char} {l : List Char},
    c ∈ collapseU l → c ∈ l
  | _, [], h => by simp [collapseU] at h
  | _, [_], h => by simpa [collapseU] using h
  | c, a :: b :: rest, h => by
      by_cases hab : a = '_' ∧ b = '_'
      · rw [show collapseU (a :: b :: rest) = collapseU (b :: rest) by
          simp [collapseU, hab]] at h
        exact List.mem_cons_of_mem a (collapseU_mem h)
      · rw [show collapseU (a :: b :: rest) = a :: collapseU (b :: rest) by
          simp [collapseU, hab]] at h
        rcases List.mem_cons.mp h with h1 | h1
        · simp [h1]
        · exact List.mem_cons_of_mem a (collapseU_mem h1)

theorem collapseU_keeps_alnum : ∀ {l : List Char},
    (∃ c ∈ l, isAlphanum c = true) → ∃ c ∈ collapseU l, isAlphanum c = true
  | [], h => by simp at h
  | [c], h => by simpa [collapseU] using h
  | a :: b :: rest, h => by
      by_cases hab : a = '_' ∧ b = '_'
      · rw [show collapseU (a :: b :: rest) = collapseU (b :: rest) by
          simp [collapseU, hab]]
        apply collapseU_keeps_alnum
        obtain ⟨c, hc, ha⟩ := h
        rcases List.mem_cons.mp hc with h1 | h1
        · subst h1; rw [hab.1] at ha; simp [isAlphanum] at ha
        · exact ⟨c, h1, ha⟩
      · rw [show collapseU (a :: b :: rest) = a :: collapseU (b :: rest) by
          simp [collapseU, hab]]
        obtain ⟨c, hc, ha⟩ := h
        rcases List.mem_cons.mp hc with h1 | h1
        · exact ⟨c, by simp [h1], ha⟩
        · obtain ⟨d, hd, hda⟩ := collapseU_keeps_alnum ⟨c, h1, ha⟩
          exact ⟨d, List.mem_cons_of_mem a hd, hda⟩

theorem noDD_cons_of {c : Char} {l : List Char} (h : noDD l = true)
    (h2 : ∀ d, l.head? = some d → ¬(c = '_' ∧ d = '_')) :
    noDD (c :: l) = true := by
  cases l with
  | nil => rfl
  | cons d rest =>
      have := h2 d rfl
      simp only [noDD, Bool.and_eq_true, Bool.not_eq_true']
      refine ⟨?_, h⟩
      simp only [Bool.and_eq_false_iff, beq_eq_false_iff_ne, ne_eq]
      by_cases hc : c = '_'
      · right; exact fun hd => this ⟨hc, hd⟩
      · left; exact hc

theorem collapseU_noDD : ∀ (l : List Char), noDD (collapseU l) = true
  | [] => rfl
  | [c] => rfl
  | a :: b :: rest => by
      by_cases hab : a = '_' ∧ b = '_'
      · rw [show collapseU (a :: b :: rest) = collapseU (b :: rest) by
          simp [collapseU, hab]]
        exact collapseU_noDD (b :: rest)
      · rw [show collapseU (a :: b :: rest) = a :: collapseU (b :: rest) by
          simp [collapseU, hab]]
        refine noDD_cons_of (collapseU_noDD (b :: rest)) ?_
        intro d hd
        rw [collapseU_head b rest] at hd
        intro hcontra
        exact hab ⟨hcontra.1, by rw [Option.some_inj.mp hd]; exact hcontra.2⟩

theorem collapseU_fix : ∀ {l : List Char}, noDD l = true → collapseU l = l
  | [], _ => rfl
  | [_], _ => rfl
  | a :: b :: rest, h => by
      simp only [noDD, Bool.and_eq_true, Bool.not_eq_true'] at h
      have hab : ¬(a = '_' ∧ b = '_') := by
        intro hc
        rw [hc.1, hc.2] at h
        simp at h
      rw [show collapseU (a :: b :: rest) = a :: collapseU (b :: rest) by
          simp [collapseU, hab]]
      rw [collapseU_fix h.2]

theorem noDD_dropLast : ∀ {l : List Char}, noDD l = true →
    noDD l.dropLast = true
  | [], _ => rfl
  | [_], _ => rfl
  | c :: d :: rest, h => by
      simp only [noDD, Bool.and_eq_true] at h
      cases rest with
      | nil => rfl
      | cons e r =>
          have ih := noDD_dropLast (l := d :: e :: r) h.2
          show noDD (c :: (d :: e :: r).dropLast) = true
          have hdl : (d :: e :: r).dropLast = d :: (e :: r).dropLast := rfl
          rw [hdl] at ih ⊢
          simp only [noDD, Bool.and_eq_true]
          exact ⟨h.1, ih⟩

theorem dropLast_getLast_ne : ∀ {l : List Char}, noDD l = true →
    l.getLast? = some '_' → l.dropLast.getLast? ≠ some '_'
  | [], _, h2 => by simp at h2
  | [_], _, _ => by simp
  | c :: d :: rest, h, h2 => by
      simp only [noDD, Bool.and_eq_true] at h
      cases rest with
      | nil =>
          have hd : d = '_' := by simpa using h2
          have hc : c ≠ '_' := by
            intro hc
            rw [hc, hd] at h
            simp at h
          simpa using hc
      | cons e r =>
          have h2' : (d :: e :: r).getLast? = some '_' := by
            rw [← List.getLast?_cons_cons]
            exact h2
          have ih := dropLast_getLast_ne h.2 h2'
          show (c :: (d :: e :: r).dropLast).getLast? ≠ some '_'
          have hdl : (d :: e :: r).dropLast = d :: (e :: r).dropLast := rfl
          rw [hdl] at ih ⊢
          rw [List.getLast?_cons_cons]
          exact ih

theorem stripTrailing_keeps_alnum {l : List Char}
    (h : ∃ c ∈ l, isAlphanum c = true) :
    ∃ c ∈ stripTrailing l, isAlphanum c = true := by
  unfold stripTrailing
  by_cases hl : l.getLast? = some '_'
  · rw [if_pos hl]
    obtain ⟨c, hc, ha⟩ := h
    have hne : l ≠ [] := by rintro rfl; simp at hl
    have hsplit := List.dropLast_append_getLast hne
    have hlast : l.getLast hne = '_' := by
      have := List.getLast?_eq_getLast l hne
      rw [this] at hl
      exact Option.some_inj.mp hl
    rw [← hsplit] at hc
    rcases List.mem_append.mp hc with h1 | h1
    · exact ⟨c, h1, ha⟩
    · exfalso
      have : c = '_' := by
        rw [hlast] at h1
        simpa using h1
      rw [this] at ha
      simp [isAlphanum] at ha
  · rw [if_neg hl]
    exact h

theorem stripTrailing_mem {c : Char} {l : List Char}
    (h : c ∈ stripTrailing l) : c ∈ l := by
  unfold stripTrailing at h
  by_cases hl : l.getLast? = some '_'
  · rw [if_pos hl] at h
    exact (List.dropLast_sublist l).subset h
  · rw [if_neg hl] at h
    exact h

theorem stripTrailing_noDD {l : List Char} (h : noDD l = true) :
    noDD (stripTrailing l) = true := by
  unfold stripTrailing
  by_cases hl : l.getLast? = some '_'
  · rw [if_pos hl]; exact noDD_dropLast h
  · rw [if_neg hl]; exact h

theorem stripTrailing_getLast_ne {l : List Char} (h : noDD l = true) :
    (stripTrailing l).getLast? ≠ some '_' := by
  unfold stripTrailing
  by_cases hl : l.getLast? = some '_'
  · rw [if_pos hl]; exact dropLast_getLast_ne h hl
  · rw [if_neg hl]; exact hl

/-- C2 counterexample: the non-empty suffix `"_"` makes the sanitization
raise an IndexError (steps 1-3 reduce it to the empty string, and step 4
then evaluates `self.suffix[0]`), so no sanitized result exists at all —
refuting the claim that for every non-empty input the result begins with an
underscore. -/
theorem sanitize_suffix_underscore_raises :
    sanitize_suffix "_" = none ∧ ("_" : String) ≠ "" := by
  exact ⟨rfl, by decide⟩

/-- C2 amended: for every suffix containing at least one alphanumeric
character, sanitization succeeds and the result contains only alphanumerics
and single underscores, never ends with an underscore, begins with an
underscore, and sanitizing the result again returns it unchanged
(idempotence).  (Inputs with no alphanumeric character instead raise an
IndexError.) -/
theorem sanitize_suffix_props (s : String)
    (h : ∃ c ∈ s.data, isAlphanum c = true) :
    ∃ r : String, sanitize_suffix s = some r
      ∧ (∀ c ∈ r.data, isAlphanum c = true ∨ c = '_')
      ∧ noDD r.data = true
      ∧ r.data.getLast? ≠ some '_'
      ∧ r.data.head? = some '_'
      ∧ sanitize_suffix r = some r := by
  have hdata : s.data ≠ [] := by
    obtain ⟨c, hc, _⟩ := h
    intro hnil
    rw [hnil] at hc
    simp at hc
  have hs : s ≠ "" := fun he => hdata (by rw [he])
  -- facts about the three purely string-rewriting phases
  have h1mem : ∀ c ∈ subNonAlnum s.data, isAlphanum c = true ∨ c = '_' :=
    fun c hc => mem_subNonAlnum hc
  have h2mem : ∀ c ∈ collapseU (subNonAlnum s.data),
      isAlphanum c = true ∨ c = '_' :=
    fun c hc => h1mem c (collapseU_mem hc)
  have h2noDD := collapseU_noDD (subNonAlnum s.data)
  have h2alnum := collapseU_keeps_alnum (subNonAlnum_keeps_alnum h)
  have h3mem : ∀ c ∈ stripTrailing (collapseU (subNonAlnum s.data)),
      isAlphanum c = true ∨ c = '_' :=
    fun c hc => h2mem c (stripTrailing_mem hc)
  have h3noDD := stripTrailing_noDD h2noDD
  have h3last := stripTrailing_getLast_ne h2noDD
  have h3alnum := stripTrailing_keeps_alnum h2alnum
  have h3ne : stripTrailing (collapseU (subNonAlnum s.data)) ≠ [] := by
    obtain ⟨c, hc, _⟩ := h3alnum
    intro hnil
    rw [hnil] at hc
    simp at hc
  obtain ⟨hd, tl, h3eq⟩ := List.exists_cons_of_ne_nil h3ne
  -- the final list produced by step 4
  refine ⟨String.mk (if hd = '_' then hd :: tl else '_' :: hd :: tl),
    ?_, ?_, ?_, ?_, ?_, ?_⟩
  · rw [sanitize_suffix, if_neg hs, h3eq]
    rfl
  · intro c hc
    by_cases hhd : hd = '_'
    · rw [if_pos hhd] at hc
      exact h3mem c (by rw [h3eq]; exact hc)
    · rw [if_neg hhd] at hc
      rcases List.mem_cons.mp hc with h1 | h1
      · right; exact h1
      · exact h3mem c (by rw [h3eq]; exact h1)
  · by_cases hhd : hd = '_'
    · rw [if_pos hhd, ← h3eq]
      exact h3noDD
    · rw [if_neg hhd]
      show noDD ('_' :: hd :: tl) = true
      refine noDD_cons_of (by rw [← h3eq]; exact h3noDD) ?_
      intro d hdd hcontra
      exact hhd (by rw [Option.some_inj.mp hdd]; exact hcontra.2)
  · by_cases hhd : hd = '_'
    · rw [if_pos hhd, ← h3eq]
      exact h3last
    · rw [if_neg hhd]
      show ('_' :: hd :: tl).getLast? ≠ some '_'
      rw [List.getLast?_cons_cons, ← h3eq]
      exact h3last
  · by_cases hhd : hd = '_' <;> simp [hhd]
  · -- idempotence: the produced string is a fixed point of sanitization
    set r' : List Char := if hd = '_' then hd :: tl else '_' :: hd :: tl
      with hr'
    have hr'ne : r' ≠ [] := by
      by_cases hhd : hd = '_' <;> simp [hr', hhd]
    have hrmem : ∀ c ∈ r', isAlphanum c = true ∨ c = '_' := by
      intro c hc
      by_cases hhd : hd = '_'
      · rw [hr', if_pos hhd] at hc
        exact h3mem c (by rw [h3eq]; exact hc)
      · rw [hr', if_neg hhd] at hc
        rcases List.mem_cons.mp hc with h1 | h1
        · right; exact h1
        · exact h3mem c (by rw [h3eq]; exact h1)
    have hrnoDD : noDD r' = true := by
      by_cases hhd : hd = '_'
      · rw [hr', if_pos hhd, ← h3eq]
        exact h3noDD
      · rw [hr', if_neg hhd]
        refine noDD_cons_of (by rw [← h3eq]; exact h3noDD) ?_
        intro d hdd hcontra
        exact hhd (by rw [Option.some_inj.mp hdd]; exact hcontra.2)
    have hrlast : r'.getLast? ≠ some '_' := by
      by_cases hhd : hd = '_'
      · rw [hr', if_pos hhd, ← h3eq]
        exact h3last
      · rw [hr', if_neg hhd, List.getLast?_cons_cons, ← h3eq]
        exact h3last
    have hrhead : r'.head? = some '_' := by
      by_cases hhd : hd = '_' <;> simp [hr', hhd]
    have hmkne : String.mk r' ≠ "" := by
      intro he
      exact hr'ne (by simpa [String.ext_iff] using he)
    rw [sanitize_suffix, if_neg hmkne]
    have hdata' : (String.mk r').data = r' := rfl
    rw [hdata', subNonAlnum_id hrmem, collapseU_fix hrnoDD]
    rw [show stripTrailing r' = r' by rw [stripTrailing, if_neg hrlast]]
    obtain ⟨tl', htl'⟩ : ∃ tl', r' = '_' :: tl' := by
      obtain ⟨a, b, hab⟩ := List.exists_cons_of_ne_nil hr'ne
      have ha : a = '_' := by
        rw [hab] at hrhead
        simpa using hrhead
      exact ⟨b, by rw [hab, ha]⟩
    rw [htl']
    rfl

/-- Witness for C2 amended at the concrete suffix `"a-b"`. -/
theorem sanitize_suffix_props_witness :
    (∃ c ∈ ("a-b" : String).data, isAlphanum c = true)
    ∧ (∃ r : String, sanitize_suffix "a-b" = some r
        ∧ (∀ c ∈ r.data, isAlphanum c = true ∨ c = '_')
        ∧ noDD r.data = true
        ∧ r.data.getLast? ≠ some '_'
        ∧ r.data.head? = some '_'
        ∧ sanitize_suffix r = some r) := by
  refine ⟨by decide, sanitize_suffix_props "a-b" (by decide)⟩

theorem countLabel_updateData (data : List DataEntry) (l : Option String)
    (fs : List String) :
    countLabel (updateData data l fs) l = max 1 (countLabel data l) := by
  induction data with
  | nil => simp [updateData, countLabel]
  | cons e rest ih =>
      by_cases he : e.label = l
      · rw [show updateData (e :: rest) l fs
            = ⟨e.label, (fs ++ e.files).dedup⟩ :: rest by
            simp [updateData, he]]
        simp [countLabel, List.countP_cons, he]
      · rw [show updateData (e :: rest) l fs = e :: updateData rest l fs by
            simp [updateData, he]]
        have hpe : (e.label == l) = false := by simp [he]
        simp only [countLabel, List.countP_cons, hpe] at ih ⊢
        simp only [Bool.false_eq_true, if_false, add_zero]
        omega

theorem lookupFiles_updateData (data : List DataEntry) (l : Option String)
    (fs : List String) :
    lookupFiles (updateData data l fs) l
      = some (match lookupFiles data l with
              | none => fs
              | some g => (fs ++ g).dedup) := by
  induction data with
  | nil => simp [updateData, lookupFiles]
  | cons e rest ih =>
      by_cases he : e.label = l
      · rw [show updateData (e :: rest) l fs
            = ⟨e.label, (fs ++ e.files).dedup⟩ :: rest by
            simp [updateData, he]]
        simp [lookupFiles, List.find?_cons_of_pos, he]
      · rw [show updateData (e :: rest) l fs = e :: updateData rest l fs by
            simp [updateData, he]]
        have hpe : (e.label == l) = false := by simp [he]
        simp only [lookupFiles, List.find?_cons, hpe] at ih ⊢
        exact ih

/-- C4: the merge step of `download_inputs` has union semantics.  Starting
from a data list holding at most one entry for the label, one update
leaves exactly one entry for it; a second update with the same file list
still leaves exactly one entry, whose file list has no duplicates and is
set-equal to the single update's; moreover a fresh label stores the file
list verbatim, and a merge into an existing entry produces the
duplicate-free union of the new and old file sets (no overwrite). -/
theorem download_inputs_merge_union (data : List DataEntry)
    (l : Option String) (fs : List String)
    (hcnt : countLabel data l ≤ 1) :
    countLabel (updateData data l fs) l = 1
    ∧ countLabel (updateData (updateData data l fs) l fs) l = 1
    ∧ ∃ f1 f2,
        lookupFiles (updateData data l fs) l = some f1
        ∧ lookupFiles (updateData (updateData data l fs) l fs) l = some f2
        ∧ (lookupFiles data l = none → f1 = fs)
        ∧ (∀ g, lookupFiles data l = some g →
            f1.Nodup ∧ f1.toFinset = fs.toFinset ∪ g.toFinset)
        ∧ f2.Nodup ∧ f2.toFinset = f1.toFinset := by
  have h1 := countLabel_updateData data l fs
  have h2 := countLabel_updateData (updateData data l fs) l fs
  have hl1 := lookupFiles_updateData data l fs
  have hl2 := lookupFiles_updateData (updateData data l fs) l fs
  refine ⟨by omega, by omega, ?_⟩
  cases hg : lookupFiles data l with
  | none =>
      rw [hg] at hl1
      rw [hl1] at hl2
      refine ⟨fs, (fs ++ fs).dedup, hl1, hl2, fun _ => rfl, ?_,
        List.nodup_dedup _, ?_⟩
      · intro g hgg
        simp at hgg
      · ext x
        simp
  | some g =>
      rw [hg] at hl1
      rw [hl1] at hl2
      refine ⟨(fs ++ g).dedup, (fs ++ (fs ++ g).dedup).dedup, hl1, hl2,
        ?_, ?_, List.nodup_dedup _, ?_⟩
      · intro hnone
        simp at hnone
      · intro g' hgg'
        obtain rfl : g = g' := Option.some_inj.mp hgg'
        refine ⟨List.nodup_dedup _, ?_⟩
        ext x
        simp
      · ext x
        simp

/-- Witness for C4 at concrete inputs. -/
theorem download_inputs_merge_union_witness :
    countLabel [] (some "L") ≤ 1
    ∧ (countLabel (updateData [] (some "L") ["a", "b"]) (some "L") = 1
       ∧ countLabel (updateData (updateData [] (some "L") ["a", "b"])
            (some "L") ["a", "b"]) (some "L") = 1
       ∧ ∃ f1 f2,
           lookupFiles (updateData [] (some "L") ["a", "b"]) (some "L")
             = some f1
           ∧ lookupFiles (updateData (updateData [] (some "L") ["a", "b"])
                (some "L") ["a", "b"]) (some "L") = some f2
           ∧ (lookupFiles [] (some "L") = none → f1 = ["a", "b"])
           ∧ (∀ g, lookupFiles [] (some "L") = some g →
               f1.Nodup
               ∧ f1.toFinset = (["a", "b"] : List String).toFinset
                   ∪ g.toFinset)
           ∧ f2.Nodup ∧ f2.toFinset = f1.toFinset) := by
  exact ⟨by decide,
    download_inputs_merge_union [] (some "L") ["a", "b"] (by decide)⟩

/-- C1: evaluating `get_xnat_dict` on an assessor input spec shows the
resource component keyed by `'resource'`, not `'out/resource'`: the guard
`if data_dict == 'assessor'` compares the dictionary itself (not its
type) against a string, which in Python is always false, so the assessor
addressing documented as `assessor/out/resource` is never produced. -/
theorem get_xnat_dict_assessor_resource_key :
    get_xnat_dict "P" "S" "E" dAssessorInput
      = some [("project", some "P"), ("subject", some "S"),
              ("experiment", some "E"),
              ("assessor", some "P-x-S-x-E-x-proc1"),
              ("resource", some "R")]
    ∧ (∀ xd, get_xnat_dict "P" "S" "E" dAssessorInput = some xd →
        "out/resource" ∉ xd.map Prod.fst ∧ "resource" ∈ xd.map Prod.fst) := by
  have h0 : get_xnat_dict "P" "S" "E" dAssessorInput
      = some [("project", some "P"), ("subject", some "S"),
              ("experiment", some "E"),
              ("assessor", some "P-x-S-x-E-x-proc1"),
              ("resource", some "R")] := by decide
  refine ⟨h0, ?_⟩
  intro xd hxd
  rw [h0] at hxd
  cases Option.some_inj.mp hxd
  exact ⟨by decide, by decide⟩

/-- C9: processing a session-kind input spec with no `'label'` key raises
`KeyError` (the logging line of `download_inputs` subscripts
`data_dict['label']` unconditionally), although the docstring states the
label is not needed for session/subject/project kinds; the same spec with
a label added is addressed fine. -/
theorem download_inputs_label_keyerror :
    download_inputs_check "inputs" "P" "S" "E" dSessionNoLabel
        = Except.error "KeyError: label"
    ∧ download_inputs_check "inputs" "P" "S" "E"
        (("label", some "E1") :: dSessionNoLabel)
        = Except.ok "/project/P/subject/S/experiment/E/resource/DATA" := by
  exact ⟨rfl, rfl⟩

/-- C7: the `matlab=True` branch of `run_cmd_args` never runs a script.
A falsy template raises as documented; but with a template set, the first
command argument raises `KeyError` (line 633 compares
`mat_args[arg['opt']] == arg['value']` on the empty dict instead of
assigning), and with no arguments `self.jobsdir` (line 637, a typo for
`jobdir`) raises `AttributeError` — the render-and-run path is
unreachable. -/
theorem run_cmd_args_matlab_bug (args : List CmdArg) (tmpl : Option String) :
    (truthy tmpl = false →
        run_cmd_args_matlab args tmpl = MatlabOutcome.raisesTemplateNotSet)
    ∧ (∀ a rest, args = a :: rest → truthy tmpl = true →
        run_cmd_args_matlab args tmpl = MatlabOutcome.raisesKeyError a.opt)
    ∧ (∀ s, run_cmd_args_matlab args tmpl ≠ MatlabOutcome.runs s) := by
  refine ⟨fun h => ?_, fun a rest ha ht => ?_, fun s => ?_⟩
  · simp [run_cmd_args_matlab, h]
  · subst ha
    simp [run_cmd_args_matlab, ht]
  · unfold run_cmd_args_matlab
    by_cases h : truthy tmpl
    · simp only [h, Bool.not_true, Bool.false_eq_true, if_false]
      cases args <;> simp
    · simp [h]

/-- Witness for C7 at concrete inputs. -/
theorem run_cmd_args_matlab_bug_witness :
    truthy (some "disp(p);") = true
    ∧ run_cmd_args_matlab [CmdArg.mk 0 "p" "v"] (some "disp(p);")
        = MatlabOutcome.raisesKeyError "p"
    ∧ run_cmd_args_matlab [CmdArg.mk 0 "p" "v"] none
        = MatlabOutcome.raisesTemplateNotSet := by
  refine ⟨by decide, ?_, ?_⟩
  · exact (run_cmd_args_matlab_bug [CmdArg.mk 0 "p" "v"]
      (some "disp(p);")).2.1 (CmdArg.mk 0 "p" "v") [] rfl (by decide)
  · exact (run_cmd_args_matlab_bug [CmdArg.mk 0 "p" "v"] none).1 (by decide)

/-- C10: `upload` registers an existing directory through `add_folder`
even when the resource is named `'PDF'`; the PDF-specific `add_pdf` path
is reached only for an existing regular file (and only with resource
`'PDF'`). -/
theorem upload_pdf_only_for_files (kind : String → PathKind)
    (fpath resource : String) :
    (kind fpath = PathKind.dir →
        upload kind fpath resource
          = Except.ok (UploadAction.addFolder fpath resource))
    ∧ (∀ p, upload kind fpath resource = Except.ok (UploadAction.addPdf p) →
        kind fpath = PathKind.file ∧ resource = "PDF" ∧ p = fpath) := by
  constructor
  · intro h
    simp [upload, h]
  · intro p hp
    unfold upload at hp
    cases hk : kind fpath with
    | file =>
        rw [hk] at hp
        by_cases hr : resource = "PDF"
        · rw [if_pos hr] at hp
          refine ⟨rfl, hr, ?_⟩
          have := Except.ok.inj hp
          exact (UploadAction.addPdf.inj this).symm
        · rw [if_neg hr] at hp
          exact absurd (Except.ok.inj hp) (by simp)
    | dir =>
        rw [hk] at hp
        exact absurd (Except.ok.inj hp) (by simp)
    | missing =>
        rw [hk] at hp
        cases hp

/-- Witness for C10 at concrete inputs. -/
theorem upload_pdf_only_for_files_witness :
    ((fun _ : String => PathKind.dir) "/job/out" = PathKind.dir)
    ∧ upload (fun _ => PathKind.dir) "/job/out" "PDF"
        = Except.ok (UploadAction.addFolder "/job/out" "PDF") := by
  exact ⟨rfl,
    (upload_pdf_only_for_files (fun _ => PathKind.dir) "/job/out" "PDF").1
      rfl⟩

theorem stageList_eq_none_iff (copyf : String → String → Option String)
    (p : String) : ∀ (k : Nat) (srcs : List String),
    stageList copyf p k srcs = none
      ↔ ∃ i < srcs.length,
          copyf (srcs.getD i "") (p ++ "_" ++ toString (k + i)) = none := by
  intro k srcs
  induction srcs generalizing k with
  | nil => simp [stageList]
  | cons s rest ih =>
      cases hc : copyf s (p ++ "_" ++ toString k) with
      | none =>
          simp only [stageList, hc]
          constructor
          · intro _
            exact ⟨0, by simp, by simpa using hc⟩
          · intro _
            trivial
      | some dst =>
          simp only [stageList, hc]
          rw [Option.map_eq_none', ih (k + 1)]
          constructor
          · rintro ⟨i, hi, hcc⟩
            refine ⟨i + 1, by simpa using hi, ?_⟩
            have harith : k + (i + 1) = k + 1 + i := by omega
            rw [harith]
            simpa using hcc
          · rintro ⟨i, hi, hcc⟩
            cases i with
            | zero =>
                exfalso
                simp only [List.getD_cons_zero, Nat.add_zero] at hcc
                rw [hcc] at hc
                cases hc
            | succ j =>
                refine ⟨j, by simpa using hi, ?_⟩
                have harith : k + 1 + j = k + (j + 1) := by omega
                rw [harith]
                simpa using hcc

theorem copy_inputs_none_of_mem (src : String → String)
    (copyf : String → String → Option String) :
    ∀ (cl : List String) (p : String), p ∈ cl →
      stage_param copyf p (src p) = none →
      copy_inputs src cl copyf = none := by
  intro cl
  induction cl with
  | nil =>
      intro p hp
      simp at hp
  | cons q rest ih =>
      intro p hp hstage
      rcases List.mem_cons.mp hp with rfl | hmem
      · simp [copy_inputs, hstage]
      · cases hq : stage_param copyf q (src q) with
        | none => simp [copy_inputs, hq]
        | some v => simp [copy_inputs, hq, ih p hmem hstage]

/-- C8: `copy_inputs` staging contract.  If any individual source copy of
any FILE/DIR parameter fails, the whole staging step yields the `None`
sentinel (no exception, no partial result); when it succeeds, every
parameter of the copy list is present in the result paired with the
comma-joined list of its staged local paths. -/
theorem copy_inputs_spec (src : String → String) (cl : List String)
    (copyf : String → String → Option String) :
    ((∃ p ∈ cl, ∃ i < (pySplitComma (src p)).length,
        copyf ((pySplitComma (src p)).getD i "") (p ++ "_" ++ toString i)
          = none) → copy_inputs src cl copyf = none)
    ∧ (∀ res, copy_inputs src cl copyf = some res →
        ∀ p ∈ cl, ∃ ds : List String,
          stageList copyf p 0 (pySplitComma (src p)) = some ds
          ∧ (p, joinSep "," ds) ∈ res) := by
  constructor
  · rintro ⟨p, hp, i, hi, hcc⟩
    apply copy_inputs_none_of_mem src copyf cl p hp
    rw [stage_param, Option.map_eq_none', stageList_eq_none_iff]
    exact ⟨i, hi, by simpa using hcc⟩
  · induction cl with
    | nil =>
        intro res _ p hp
        simp at hp
    | cons q rest ih =>
        intro res hres p hp
        cases hq : stage_param copyf q (src q) with
        | none =>
            rw [show copy_inputs src (q :: rest) copyf = none by
              simp [copy_inputs, hq]] at hres
            cases hres
        | some v =>
            rw [show copy_inputs src (q :: rest) copyf
                = (copy_inputs src rest copyf).map (fun l => (q, v) :: l) by
              simp [copy_inputs, hq]] at hres
            cases hrest : copy_inputs src rest copyf with
            | none =>
                rw [hrest] at hres
                cases hres
            | some l' =>
                rw [hrest] at hres
                have hres' : (q, v) :: l' = res := by
                  simpa using hres
                rcases List.mem_cons.mp hp with rfl | hmem
                · rw [stage_param] at hq
                  obtain ⟨ds, hds, hv⟩ := Option.map_eq_some'.mp hq
                  refine ⟨ds, hds, ?_⟩
                  rw [← hres', hv]
                  exact List.mem_cons_self _ _
                · obtain ⟨ds, hds, hmem'⟩ := ih l' hrest p hmem
                  exact ⟨ds, hds, by rw [← hres']
                                     exact List.mem_cons_of_mem _ hmem'⟩

/-- Witness for C8 at concrete inputs: the parameter `"A"` lists two
sources `"x,bad"`; copying `"bad"` fails, so staging yields `none`. -/
theorem copy_inputs_spec_witness :
    (∃ p ∈ ["A"], ∃ i < (pySplitComma (srcW p)).length,
        copyW ((pySplitComma (srcW p)).getD i "") (p ++ "_" ++ toString i)
          = none)
    ∧ copy_inputs srcW ["A"] copyW = none := by
  have hyp : ∃ p ∈ ["A"], ∃ i < (pySplitComma (srcW p)).length,
      copyW ((pySplitComma (srcW p)).getD i "") (p ++ "_" ++ toString i)
        = none := ⟨"A", by decide, 1, by decide, by decide⟩
  exact ⟨hyp, (copy_inputs_spec srcW ["A"] copyW).1 hyp⟩
